import Mathlib

/-!
# Verification of the address-book-service indexed contact store

A shallow embedding of `src/storage/memory_store.py` (class `MemoryStore`)
and `src/models/contact.py` (class `Contact`) from the
`address-book-service` repository, together with proofs about the store's
five operations (create / get / update / delete / search) and its
name / phone / email indexes.

Python dictionaries are modelled as association lists (insertion-ordered,
as Python dicts are); Python sets of ids are modelled as duplicate-free
lists in insertion order; `str.lower`, `str.split()` and `str.strip()`
are reimplemented below over the character list with Python's default
whitespace set (`pyLower`, `pySplit`, `pyStrip`).
-/

namespace AddressBook

/-- Whitespace characters recognised by Python's default `str.split()` /
`str.strip()` (ASCII subset). -/
def isPySpace (c : Char) : Bool :=
  c = ' ' || c = '\t' || c = '\n' || c = '\r' || c = '\x0b' || c = '\x0c'

/-- Lowercase one character (ASCII range, as all data handled by this
repository's `.lower()` calls is ASCII). -/
def lowerChar (c : Char) : Char :=
  if 'A' ≤ c ∧ c ≤ 'Z' then Char.ofNat (c.toNat + 32) else c

/-- Python `str.lower()` (ASCII range). -/
def pyLower (s : String) : String := String.mk (s.data.map lowerChar)

/-- Helper for `pySplit`: walk the characters, accumulating the current
word (reversed) in `acc`. -/
def splitWsAux : List Char → List Char → List String
  | [], acc => if acc.isEmpty then [] else [String.mk acc.reverse]
  | c :: t, acc =>
    if isPySpace c then
      if acc.isEmpty then splitWsAux t [] else String.mk acc.reverse :: splitWsAux t []
    else
      splitWsAux t (c :: acc)

/-- Python `str.split()` with no argument: split on runs of whitespace,
dropping empty fragments. -/
def pySplit (s : String) : List String := splitWsAux s.data []

/-- Drop leading Python-whitespace characters. -/
def dropPySpaces : List Char → List Char
  | [] => []
  | c :: t => if isPySpace c then dropPySpaces t else c :: t

/-- Python `str.strip()` with no argument: remove leading and trailing
whitespace. -/
def pyStrip (s : String) : String :=
  String.mk ((dropPySpaces (dropPySpaces s.data).reverse).reverse)

/-- Containment of one character list in another, at any position. -/
def isInfixList (q : List Char) : List Char → Bool
  | [] => q.isEmpty
  | c :: t => q.isPrefixOf (c :: t) || isInfixList q t

/-- Python's substring containment test `q in s`. -/
def substrIn (q s : String) : Bool := isInfixList q.data s.data

/-- `models/contact.py`: the `Contact` dataclass.  The `id` is generated
by `uuid.uuid4()` in `__post_init__` when absent; here every `Contact`
carries its id explicitly and freshness is a hypothesis where needed. -/
structure Contact where
  id : String
  name : String
  phone : String
  email : String
deriving DecidableEq, Repr

/-- An `**updates` keyword dictionary passed to `Contact.update_fields` /
`MemoryStore.update_contact`: an optional new value for each attribute.
A supplied `id` key is ignored by `update_fields` (the Python code skips
`field == 'id'`), which the model mirrors by carrying it but never using
it. -/
structure Updates where
  name : Option String := none
  phone : Option String := none
  email : Option String := none
  id : Option String := none
deriving DecidableEq, Repr

/-- `Contact.update_fields`: set each supplied attribute; `id` is never
updated (`if hasattr(self, field) and field != 'id'`). -/
def Contact.update_fields (c : Contact) (u : Updates) : Contact :=
  { c with
    name := u.name.getD c.name
    phone := u.phone.getD c.phone
    email := u.email.getD c.email }

/-! ## Association lists modelling Python dicts -/

/-- Dict lookup `d.get(k)` on an insertion-ordered association list. -/
def lookupA {β : Type} (k : String) : List (String × β) → Option β
  | [] => none
  | (k', v) :: t => if k' = k then some v else lookupA k t

/-- Dict write `d[k] = v`: overwrite in place if the key exists, else
append (Python dicts keep insertion order; overwriting keeps the key's
position). -/
def insertA {β : Type} (k : String) (v : β) : List (String × β) → List (String × β)
  | [] => [(k, v)]
  | (k', v') :: t => if k' = k then (k, v) :: t else (k', v') :: insertA k v t

/-- Dict delete `del d[k]`. -/
def eraseA {β : Type} (k : String) (l : List (String × β)) : List (String × β) :=
  l.filter (fun kv => kv.1 ≠ k)

/-- Python set insertion `s.add(x)` on a duplicate-free list in insertion
order. -/
def insertSet (x : String) (l : List String) : List String :=
  if l.contains x then l else l ++ [x]

/-! ## The store (`storage/memory_store.py`, class `MemoryStore`)

The Python object holds four dictionaries guarded by one re-entrant lock;
each public operation is one critical section, so the lock is modelled by
each operation being one pure state transformer. -/

/-- The state of a `MemoryStore`: `_contacts` (primary, id → Contact),
`_name_index` (lowercased name word → set of ids), `_phone_index`
(phone string → id), `_email_index` (lowercased email → id). -/
structure MemoryStore where
  contacts : List (String × Contact)
  nameIndex : List (String × List String)
  phoneIndex : List (String × String)
  emailIndex : List (String × String)
deriving DecidableEq, Repr

/-- `MemoryStore.__init__`: all four dicts empty. -/
def emptyStore : MemoryStore := ⟨[], [], [], []⟩

/-- The id set currently stored in the name index under a word (an absent
word holds the empty set). -/
def idsOf (w : String) (ni : List (String × List String)) : List String :=
  (lookupA w ni).getD []

/-- One step of the name-index loop in `MemoryStore._update_indexes`:
ensure the word's set exists and add the contact id to it. -/
def addWordStep (cid : String) (ni : List (String × List String)) (w : String) :
    List (String × List String) :=
  insertA w (insertSet cid (idsOf w ni)) ni

/-- `MemoryStore._update_indexes(contact)`: add the contact's lowercased
name words to the name index, and write its phone / lowercased email into
the single-valued phone / email indexes (overwriting any present entry). -/
def MemoryStore.updateIndexes (c : Contact) (s : MemoryStore) : MemoryStore :=
  let ni := (pySplit (pyLower c.name)).foldl (addWordStep c.id) s.nameIndex
  { s with
    nameIndex := ni
    phoneIndex := insertA c.phone c.id s.phoneIndex
    emailIndex := insertA (pyLower c.email) c.id s.emailIndex }

/-- One step of the name-index cleanup loop in
`MemoryStore._remove_from_indexes`: discard the id from the word's set and
delete the key when the set becomes empty. -/
def removeWordStep (cid : String) (ni : List (String × List String)) (w : String) :
    List (String × List String) :=
  match lookupA w ni with
  | none => ni
  | some ids =>
    let ids' := ids.filter (fun i => i ≠ cid)
    if ids'.isEmpty then eraseA w ni else insertA w ids' ni

/-- `MemoryStore._remove_from_indexes(contact)`: remove the contact's
current name words, phone and lowercased email from the three indexes
(the phone / email entries are deleted whenever the key is present,
whatever id they hold). -/
def MemoryStore.removeFromIndexes (c : Contact) (s : MemoryStore) : MemoryStore :=
  let ni := (pySplit (pyLower c.name)).foldl (removeWordStep c.id) s.nameIndex
  let pi := if (lookupA c.phone s.phoneIndex).isSome
            then eraseA c.phone s.phoneIndex else s.phoneIndex
  let ei := if (lookupA (pyLower c.email) s.emailIndex).isSome
            then eraseA (pyLower c.email) s.emailIndex else s.emailIndex
  { s with nameIndex := ni, phoneIndex := pi, emailIndex := ei }

/-- `MemoryStore.create_contact(contact)`: insert into the primary map and
update all indexes; returns the contact (always succeeds). -/
def MemoryStore.create_contact (c : Contact) (s : MemoryStore) : Contact × MemoryStore :=
  let s1 := { s with contacts := insertA c.id c s.contacts }
  (c, s1.updateIndexes c)

/-- `MemoryStore.get_contact(contact_id)`: `self._contacts.get(contact_id)`. -/
def MemoryStore.get_contact (cid : String) (s : MemoryStore) : Option Contact :=
  lookupA cid s.contacts

/-- `MemoryStore.update_contact(contact_id, **updates)`: `None` when the id
is absent; otherwise remove the old index entries, mutate the contact's
fields, re-add the new index entries, and return the updated contact.
The in-place Python mutation of the shared `Contact` object is modelled by
rewriting the primary-map entry to the updated record. -/
def MemoryStore.update_contact (cid : String) (u : Updates) (s : MemoryStore) :
    Option Contact × MemoryStore :=
  match lookupA cid s.contacts with
  | none => (none, s)
  | some c =>
    let s1 := s.removeFromIndexes c
    let c' := c.update_fields u
    let s2 := { s1 with contacts := insertA cid c' s1.contacts }
    (some c', s2.updateIndexes c')

/-- `MemoryStore.delete_contact(contact_id)`: `False` when the id is
absent; otherwise remove the contact from all indexes and from the primary
map and return `True`. -/
def MemoryStore.delete_contact (cid : String) (s : MemoryStore) : Bool × MemoryStore :=
  match lookupA cid s.contacts with
  | none => (false, s)
  | some c =>
    let s1 := s.removeFromIndexes c
    (true, { s1 with contacts := eraseA cid s1.contacts })

/-- `MemoryStore.search_contacts(query)`: lowercase and strip the query;
empty result for a blank query; otherwise collect into an id set every id
whose name-index word, phone-index key, or lowercased email-index key
contains the query as a substring, and map the ids back to contacts,
skipping ids absent from the primary map. -/
def MemoryStore.search_contacts (q : String) (s : MemoryStore) : List Contact :=
  let ql := pyStrip (pyLower q)
  if ql = "" then []
  else
    let m1 := s.nameIndex.foldl
      (fun acc wids =>
        if substrIn ql (pyLower wids.1) then wids.2.foldl (fun a i => insertSet i a) acc else acc)
      []
    let m2 := s.phoneIndex.foldl
      (fun acc pi => if substrIn ql pi.1 then insertSet pi.2 acc else acc) m1
    let m3 := s.emailIndex.foldl
      (fun acc ei => if substrIn ql (pyLower ei.1) then insertSet ei.2 acc else acc) m2
    m3.filterMap (fun i => lookupA i s.contacts)

/-- `MemoryStore.get_all_contacts()`: `list(self._contacts.values())`. -/
def MemoryStore.get_all_contacts (s : MemoryStore) : List Contact :=
  s.contacts.map (fun kc => kc.2)

/-! ## The index consistency invariant (spec §3 / §8) -/

/-- The id is a key of the primary map. -/
def memPrimary (i : String) (s : MemoryStore) : Bool :=
  (lookupA i s.contacts).isSome

/-- First half of the invariant: every id reachable through any entry of
any of the three indexes exists as a key of the primary map. -/
def noDangling (s : MemoryStore) : Bool :=
  s.nameIndex.all (fun wids => wids.2.all (fun i => memPrimary i s)) &&
  s.phoneIndex.all (fun pi => memPrimary pi.2 s) &&
  s.emailIndex.all (fun ei => memPrimary ei.2 s)

/-- Second half of the invariant: every contact of the primary map is
reachable through each of its lowercased name words in the name index,
through its exact phone string in the phone index, and through its
lowercased email in the email index. -/
def allReachable (s : MemoryStore) : Bool :=
  s.contacts.all (fun kc =>
    (pySplit (pyLower kc.2.name)).all (fun w => (idsOf w s.nameIndex).contains kc.2.id) &&
    (lookupA kc.2.phone s.phoneIndex == some kc.2.id) &&
    (lookupA (pyLower kc.2.email) s.emailIndex == some kc.2.id))

/-- The full index consistency invariant. -/
def indexInvariant (s : MemoryStore) : Bool :=
  noDangling s && allReachable s

/-! ## Operation sequences -/

/-- One mutating store operation (the read operations do not change the
state, so sequences of mutations suffice for the invariant claims). -/
inductive Op where
  | create (c : Contact)
  | update (cid : String) (u : Updates)
  | delete (cid : String)
deriving DecidableEq, Repr

/-- Apply one operation to a store, discarding the returned value. -/
def applyOp (s : MemoryStore) : Op → MemoryStore
  | .create c => (s.create_contact c).2
  | .update cid u => (s.update_contact cid u).2
  | .delete cid => (s.delete_contact cid).2

/-- Run a sequence of operations from a given store. -/
def runFrom (s : MemoryStore) (ops : List Op) : MemoryStore :=
  ops.foldl applyOp s

/-- Run a sequence of operations from the empty store. -/
def run (ops : List Op) : MemoryStore := runFrom emptyStore ops

/-- Collision-freedom precondition of one operation: a created contact has
a fresh id, a phone no stored contact uses, and a lowercased email no
stored contact uses; an update gives the target a phone and lowercased
email no *other* stored contact uses; deletes are unconditional.  Id
freshness reflects `uuid.uuid4()`, and phone/email freshness rules out the
last-writer-wins overwrites of the single-valued phone/email indexes. -/
def freshOk (s : MemoryStore) : Op → Bool
  | .create c =>
    (lookupA c.id s.contacts).isNone &&
    s.contacts.all (fun kc => kc.2.phone != c.phone) &&
    s.contacts.all (fun kc => (pyLower kc.2.email) != (pyLower c.email))
  | .update cid u =>
    match lookupA cid s.contacts with
    | none => true
    | some c =>
      let c' := c.update_fields u
      s.contacts.all (fun kc =>
        kc.1 == cid ||
        (kc.2.phone != c'.phone && (pyLower kc.2.email) != (pyLower c'.email)))
  | .delete _ => true

/-- Collision-freedom of a whole sequence, checked state by state. -/
def runOk : MemoryStore → List Op → Bool
  | _, [] => true
  | s, op :: t => freshOk s op && runOk (applyOp s op) t

/-! ## Well-formedness: the inductive strengthening of the invariant -/

/-- The association list has pairwise-distinct keys (true of every Python
dict; preserved by every model operation). -/
def nodupKeys {β : Type} (l : List (String × β)) : Prop :=
  (l.map Prod.fst).Nodup

/-- Well-formed store: the four dicts have duplicate-free keys, stored
contacts carry their own key as id, and each index is characterised
exactly by the contacts' current field values. -/
structure WF (s : MemoryStore) : Prop where
  ndContacts : nodupKeys s.contacts
  ndName : nodupKeys s.nameIndex
  ndPhone : nodupKeys s.phoneIndex
  ndEmail : nodupKeys s.emailIndex
  id_eq : ∀ k c, lookupA k s.contacts = some c → c.id = k
  phoneIdx : ∀ p i, lookupA p s.phoneIndex = some i ↔
      ∃ c, lookupA i s.contacts = some c ∧ c.phone = p
  emailIdx : ∀ e i, lookupA e s.emailIndex = some i ↔
      ∃ c, lookupA i s.contacts = some c ∧ (pyLower c.email) = e
  nameIdx : ∀ w i, i ∈ idsOf w s.nameIndex ↔
      ∃ c, lookupA i s.contacts = some c ∧ w ∈ pySplit (pyLower c.name)

/-! ## Association-list lemmas -/

theorem lookupA_insertA_self {β : Type} (k : String) (v : β) (l : List (String × β)) :
    lookupA k (insertA k v l) = some v := by
  induction l with
  | nil => simp [insertA, lookupA]
  | cons kv t ih =>
    obtain ⟨a, b⟩ := kv
    by_cases h : a = k
    · subst h
      simp [insertA, lookupA]
    · simpa [insertA, h, lookupA] using ih

theorem lookupA_insertA_ne {β : Type} {k k' : String} (v : β) (l : List (String × β))
    (h : k ≠ k') : lookupA k (insertA k' v l) = lookupA k l := by
  have h' : k' ≠ k := Ne.symm h
  induction l with
  | nil => simp [insertA, lookupA, h']
  | cons kv t ih =>
    obtain ⟨a, b⟩ := kv
    by_cases h1 : a = k'
    · subst h1
      simp [insertA, lookupA, h']
    · by_cases h2 : a = k <;> simp [insertA, h1, lookupA, h2, ih, h, h']

theorem lookupA_eraseA_self {β : Type} (k : String) (l : List (String × β)) :
    lookupA k (eraseA k l) = none := by
  induction l with
  | nil => simp [eraseA, lookupA]
  | cons kv t ih =>
    obtain ⟨a, b⟩ := kv
    by_cases h : a = k
    · subst h
      simpa [eraseA, List.filter_cons, lookupA] using ih
    · simpa [eraseA, List.filter_cons, h, lookupA] using ih

theorem lookupA_eraseA_ne {β : Type} {k k' : String} (l : List (String × β))
    (h : k ≠ k') : lookupA k (eraseA k' l) = lookupA k l := by
  induction l with
  | nil => simp [eraseA, lookupA]
  | cons kv t ih =>
    obtain ⟨a, b⟩ := kv
    by_cases h1 : a = k'
    · have h2 : a ≠ k := by
        rw [h1]
        exact Ne.symm h
      simpa [eraseA, List.filter_cons, h1, lookupA, h2, Ne.symm h] using ih
    · by_cases h2 : a = k
      · simp [eraseA, List.filter_cons, h1, lookupA, h2, h]
      · simpa [eraseA, List.filter_cons, h1, lookupA, h2] using ih

theorem lookupA_mem {β : Type} {k : String} {v : β} {l : List (String × β)}
    (h : lookupA k l = some v) : (k, v) ∈ l := by
  induction l with
  | nil => simp [lookupA] at h
  | cons kv t ih =>
    obtain ⟨a, b⟩ := kv
    by_cases h1 : a = k
    · subst h1
      simp only [lookupA, if_pos rfl] at h
      injection h with h2
      subst h2
      exact List.mem_cons_self _ _
    · simp only [lookupA, if_neg h1] at h
      exact List.mem_cons_of_mem _ (ih h)

theorem mem_insertSet {x y : String} {l : List String} :
    x ∈ insertSet y l ↔ x = y ∨ x ∈ l := by
  unfold insertSet
  by_cases h : l.contains y
  · have hy : y ∈ l := by simpa using h
    rw [if_pos h]
    constructor
    · exact Or.inr
    · rintro (rfl | hx)
      · exact hy
      · exact hx
  · rw [if_neg h]
    simp only [List.mem_append, List.mem_singleton]
    tauto

/-! ### Keys without duplicates -/

theorem mem_keys_insertA {β : Type} {a k : String} (v : β) (l : List (String × β)) :
    a ∈ (insertA k v l).map Prod.fst ↔ a = k ∨ a ∈ l.map Prod.fst := by
  induction l with
  | nil => simp [insertA]
  | cons kv t ih =>
    obtain ⟨b, c⟩ := kv
    by_cases h : b = k
    · subst h
      simp [insertA]
    · simp [insertA, h, ih]
      tauto

theorem nodupKeys_insertA {β : Type} {k : String} {v : β} {l : List (String × β)}
    (h : nodupKeys l) : nodupKeys (insertA k v l) := by
  induction l with
  | nil => simp [nodupKeys, insertA]
  | cons kv t ih =>
    obtain ⟨b, c⟩ := kv
    unfold nodupKeys at h
    simp only [List.map_cons, List.nodup_cons] at h
    by_cases h1 : b = k
    · subst h1
      unfold nodupKeys
      simpa [insertA] using h
    · unfold nodupKeys
      simp only [insertA, if_neg h1, List.map_cons, List.nodup_cons]
      refine ⟨?_, ih h.2⟩
      rw [mem_keys_insertA]
      rintro (rfl | hmem)
      · exact h1 rfl
      · exact h.1 hmem

theorem nodupKeys_eraseA {β : Type} {k : String} {l : List (String × β)}
    (h : nodupKeys l) : nodupKeys (eraseA k l) := by
  unfold nodupKeys eraseA at *
  exact (List.Sublist.map Prod.fst (List.filter_sublist l)).nodup h

theorem lookupA_of_mem {β : Type} {k : String} {v : β} {l : List (String × β)}
    (hnd : nodupKeys l) (h : (k, v) ∈ l) : lookupA k l = some v := by
  induction l with
  | nil => simp at h
  | cons kv t ih =>
    unfold nodupKeys at hnd
    simp only [List.map_cons, List.nodup_cons] at hnd
    rcases List.mem_cons.mp h with h1 | h1
    · rw [← h1]
      simp [lookupA]
    · have hk : kv.1 ≠ k := by
        intro hh
        exact hnd.1 (hh ▸ List.mem_map_of_mem Prod.fst h1)
      simp only [lookupA, if_neg hk]
      exact ih hnd.2 h1

/-! ### Name-index fold lemmas -/

theorem idsOf_addWordStep (cid w w' : String) (ni : List (String × List String)) :
    idsOf w (addWordStep cid ni w') =
      if w' = w then insertSet cid (idsOf w ni) else idsOf w ni := by
  unfold addWordStep idsOf
  by_cases h : w' = w
  · subst h
    simp [lookupA_insertA_self]
  · rw [lookupA_insertA_ne _ _ (fun hh => h hh.symm), if_neg h]

theorem idsOf_removeWordStep (cid w w' : String) (ni : List (String × List String)) :
    idsOf w (removeWordStep cid ni w') =
      if w' = w then (idsOf w ni).filter (fun i => i ≠ cid) else idsOf w ni := by
  cases hl : lookupA w' ni with
  | none =>
    simp only [removeWordStep, hl]
    by_cases h : w' = w
    · subst h
      unfold idsOf
      simp [hl]
    · simp [h]
  | some ids =>
    simp only [removeWordStep, hl]
    by_cases h : w' = w
    · subst h
      by_cases hemp : (ids.filter (fun i => i ≠ cid)).isEmpty
      · rw [if_pos hemp, if_pos rfl]
        have hnil : ids.filter (fun i => i ≠ cid) = [] := List.isEmpty_iff.mp hemp
        unfold idsOf
        rw [lookupA_eraseA_self, hl]
        exact hnil.symm
      · rw [if_neg hemp, if_pos rfl]
        unfold idsOf
        rw [lookupA_insertA_self, hl]
        rfl
    · have h' : w ≠ w' := Ne.symm h
      by_cases hemp : (ids.filter (fun i => i ≠ cid)).isEmpty
      · rw [if_pos hemp, if_neg h]
        unfold idsOf
        rw [lookupA_eraseA_ne _ h']
      · rw [if_neg hemp, if_neg h]
        unfold idsOf
        rw [lookupA_insertA_ne _ _ h']

theorem mem_idsOf_foldl_add (cid i w : String) (ws : List String) :
    ∀ ni, i ∈ idsOf w (ws.foldl (addWordStep cid) ni) ↔
      i ∈ idsOf w ni ∨ (i = cid ∧ w ∈ ws) := by
  induction ws with
  | nil => simp
  | cons w0 t ih =>
    intro ni
    rw [List.foldl_cons, ih, idsOf_addWordStep]
    by_cases h : w0 = w
    · subst h
      rw [if_pos rfl, mem_insertSet]
      simp only [List.mem_cons]
      tauto
    · rw [if_neg h]
      simp only [List.mem_cons]
      have : ¬ w = w0 := fun hh => h hh.symm
      tauto

theorem mem_idsOf_foldl_remove (cid i w : String) (ws : List String) :
    ∀ ni, i ∈ idsOf w (ws.foldl (removeWordStep cid) ni) ↔
      i ∈ idsOf w ni ∧ ¬(i = cid ∧ w ∈ ws) := by
  induction ws with
  | nil => simp
  | cons w0 t ih =>
    intro ni
    rw [List.foldl_cons, ih, idsOf_removeWordStep]
    by_cases h : w0 = w
    · subst h
      rw [if_pos rfl]
      simp only [List.mem_filter, List.mem_cons, decide_eq_true_eq]
      tauto
    · rw [if_neg h]
      simp only [List.mem_cons]
      have : ¬ w = w0 := fun hh => h hh.symm
      tauto

theorem nodupKeys_foldl {β : Type} (f : List (String × β) → String → List (String × β))
    (hf : ∀ ni w, nodupKeys ni → nodupKeys (f ni w)) :
    ∀ (ws : List String) (ni : List (String × β)),
      nodupKeys ni → nodupKeys (ws.foldl f ni) := by
  intro ws
  induction ws with
  | nil => intro ni h; exact h
  | cons w0 t ih => intro ni h; exact ih _ (hf ni w0 h)

theorem nodupKeys_addWordStep (cid : String) (ni : List (String × List String)) (w : String)
    (h : nodupKeys ni) : nodupKeys (addWordStep cid ni w) :=
  nodupKeys_insertA h

theorem nodupKeys_removeWordStep (cid : String) (ni : List (String × List String)) (w : String)
    (h : nodupKeys ni) : nodupKeys (removeWordStep cid ni w) := by
  cases hl : lookupA w ni with
  | none => simpa only [removeWordStep, hl] using h
  | some ids =>
    simp only [removeWordStep, hl]
    by_cases hemp : (ids.filter (fun i => i ≠ cid)).isEmpty
    · rw [if_pos hemp]
      exact nodupKeys_eraseA h
    · rw [if_neg hemp]
      exact nodupKeys_insertA h

theorem WF_empty : WF emptyStore := by
  constructor <;> simp [emptyStore, nodupKeys, lookupA, idsOf]

theorem indexInvariant_of_WF {s : MemoryStore} (h : WF s) : indexInvariant s = true := by
  unfold indexInvariant noDangling allReachable
  simp only [Bool.and_eq_true, List.all_eq_true, beq_iff_eq]
  refine ⟨⟨⟨?_, ?_⟩, ?_⟩, ?_⟩
  · intro wids hmem i hi
    obtain ⟨w, ids⟩ := wids
    have hlook : lookupA w s.nameIndex = some ids := lookupA_of_mem h.ndName hmem
    have hin : i ∈ idsOf w s.nameIndex := by
      unfold idsOf
      rw [hlook]
      exact hi
    obtain ⟨c, hc, -⟩ := (h.nameIdx w i).mp hin
    unfold memPrimary
    rw [hc]
    rfl
  · intro pi hmem
    obtain ⟨p, i⟩ := pi
    have hlook : lookupA p s.phoneIndex = some i := lookupA_of_mem h.ndPhone hmem
    obtain ⟨c, hc, -⟩ := (h.phoneIdx p i).mp hlook
    unfold memPrimary
    rw [hc]
    rfl
  · intro ei hmem
    obtain ⟨e, i⟩ := ei
    have hlook : lookupA e s.emailIndex = some i := lookupA_of_mem h.ndEmail hmem
    obtain ⟨c, hc, -⟩ := (h.emailIdx e i).mp hlook
    unfold memPrimary
    rw [hc]
    rfl
  · intro kc hmem
    obtain ⟨k, c⟩ := kc
    have hlook : lookupA k s.contacts = some c := lookupA_of_mem h.ndContacts hmem
    have hid : c.id = k := h.id_eq k c hlook
    have hlook' : lookupA c.id s.contacts = some c := by
      rw [hid]
      exact hlook
    refine ⟨⟨?_, ?_⟩, ?_⟩
    · intro w hw
      have : c.id ∈ idsOf w s.nameIndex := (h.nameIdx w c.id).mpr ⟨c, hlook', hw⟩
      simpa [List.elem_iff] using this
    · exact (h.phoneIdx c.phone c.id).mpr ⟨c, hlook', rfl⟩
    · exact (h.emailIdx (pyLower c.email) c.id).mpr ⟨c, hlook', rfl⟩

theorem WF_create {s : MemoryStore} (c : Contact) (hWF : WF s)
    (hid : lookupA c.id s.contacts = none)
    (hph : ∀ kc ∈ s.contacts, kc.2.phone ≠ c.phone)
    (hem : ∀ kc ∈ s.contacts, (pyLower kc.2.email) ≠ (pyLower c.email)) :
    WF (s.create_contact c).2 := by
  have hs : (s.create_contact c).2 =
      { contacts := insertA c.id c s.contacts
        nameIndex := (pySplit (pyLower c.name)).foldl (addWordStep c.id) s.nameIndex
        phoneIndex := insertA c.phone c.id s.phoneIndex
        emailIndex := insertA (pyLower c.email) c.id s.emailIndex } := rfl
  rw [hs]
  constructor
  · exact nodupKeys_insertA hWF.ndContacts
  · exact nodupKeys_foldl _ (fun ni w h => nodupKeys_addWordStep c.id ni w h) _ _ hWF.ndName
  · exact nodupKeys_insertA hWF.ndPhone
  · exact nodupKeys_insertA hWF.ndEmail
  · intro k c'' hk
    by_cases hkc : k = c.id
    · subst hkc
      rw [lookupA_insertA_self] at hk
      injection hk with hk
      rw [← hk]
    · rw [lookupA_insertA_ne _ _ hkc] at hk
      exact hWF.id_eq k c'' hk
  · intro p i
    show lookupA p (insertA c.phone c.id s.phoneIndex) = some i ↔
      ∃ c'', lookupA i (insertA c.id c s.contacts) = some c'' ∧ c''.phone = p
    by_cases hp : p = c.phone
    · subst hp
      rw [lookupA_insertA_self]
      constructor
      · intro hi
        injection hi with hi
        rw [← hi]
        exact ⟨c, by rw [lookupA_insertA_self], rfl⟩
      · rintro ⟨c'', hc'', hp''⟩
        by_cases hic : i = c.id
        · rw [hic]
        · rw [lookupA_insertA_ne _ _ hic] at hc''
          exact absurd hp'' (hph _ (lookupA_mem hc''))
    · rw [lookupA_insertA_ne _ _ hp, hWF.phoneIdx p i]
      constructor
      · rintro ⟨c'', hc'', hp''⟩
        by_cases hic : i = c.id
        · subst hic
          rw [hid] at hc''
          cases hc''
        · refine ⟨c'', ?_, hp''⟩
          rw [lookupA_insertA_ne _ _ hic]
          exact hc''
      · rintro ⟨c'', hc'', hp''⟩
        by_cases hic : i = c.id
        · subst hic
          rw [lookupA_insertA_self] at hc''
          injection hc'' with hc''
          rw [← hc''] at hp''
          exact absurd hp''.symm hp
        · rw [lookupA_insertA_ne _ _ hic] at hc''
          exact ⟨c'', hc'', hp''⟩
  · intro e i
    show lookupA e (insertA (pyLower c.email) c.id s.emailIndex) = some i ↔
      ∃ c'', lookupA i (insertA c.id c s.contacts) = some c'' ∧ (pyLower c''.email) = e
    by_cases he : e = (pyLower c.email)
    · subst he
      rw [lookupA_insertA_self]
      constructor
      · intro hi
        injection hi with hi
        rw [← hi]
        exact ⟨c, by rw [lookupA_insertA_self], rfl⟩
      · rintro ⟨c'', hc'', he''⟩
        by_cases hic : i = c.id
        · rw [hic]
        · rw [lookupA_insertA_ne _ _ hic] at hc''
          exact absurd he'' (hem _ (lookupA_mem hc''))
    · rw [lookupA_insertA_ne _ _ he, hWF.emailIdx e i]
      constructor
      · rintro ⟨c'', hc'', he''⟩
        by_cases hic : i = c.id
        · subst hic
          rw [hid] at hc''
          cases hc''
        · refine ⟨c'', ?_, he''⟩
          rw [lookupA_insertA_ne _ _ hic]
          exact hc''
      · rintro ⟨c'', hc'', he''⟩
        by_cases hic : i = c.id
        · subst hic
          rw [lookupA_insertA_self] at hc''
          injection hc'' with hc''
          rw [← hc''] at he''
          exact absurd he''.symm he
        · rw [lookupA_insertA_ne _ _ hic] at hc''
          exact ⟨c'', hc'', he''⟩
  · intro w i
    show i ∈ idsOf w ((pySplit (pyLower c.name)).foldl (addWordStep c.id) s.nameIndex) ↔
      ∃ c'', lookupA i (insertA c.id c s.contacts) = some c'' ∧ w ∈ pySplit (pyLower c''.name)
    rw [mem_idsOf_foldl_add]
    by_cases hic : i = c.id
    · subst hic
      constructor
      · rintro (hmem | ⟨-, hw⟩)
        · obtain ⟨c'', hc'', -⟩ := (hWF.nameIdx w c.id).mp hmem
          rw [hid] at hc''
          cases hc''
        · exact ⟨c, by rw [lookupA_insertA_self], hw⟩
      · rintro ⟨c'', hc'', hw⟩
        rw [lookupA_insertA_self] at hc''
        injection hc'' with hc''
        rw [← hc''] at hw
        exact Or.inr ⟨rfl, hw⟩
    · constructor
      · rintro (hmem | ⟨hi, -⟩)
        · obtain ⟨c'', hc'', hw⟩ := (hWF.nameIdx w i).mp hmem
          refine ⟨c'', ?_, hw⟩
          rw [lookupA_insertA_ne _ _ hic]
          exact hc''
        · exact absurd hi hic
      · rintro ⟨c'', hc'', hw⟩
        rw [lookupA_insertA_ne _ _ hic] at hc''
        exact Or.inl ((hWF.nameIdx w i).mpr ⟨c'', hc'', hw⟩)

/-- In a well-formed store, removing a stored contact's index entries
takes the `isSome` branches and erases exactly its phone and email keys. -/
theorem removeFromIndexes_eq {s : MemoryStore} {cid : String} {c : Contact} (hWF : WF s)
    (hc : lookupA cid s.contacts = some c) :
    s.removeFromIndexes c =
      { contacts := s.contacts
        nameIndex := (pySplit (pyLower c.name)).foldl (removeWordStep c.id) s.nameIndex
        phoneIndex := eraseA c.phone s.phoneIndex
        emailIndex := eraseA (pyLower c.email) s.emailIndex } := by
  have hp : lookupA c.phone s.phoneIndex = some cid := (hWF.phoneIdx _ cid).mpr ⟨c, hc, rfl⟩
  have he : lookupA (pyLower c.email) s.emailIndex = some cid :=
    (hWF.emailIdx _ cid).mpr ⟨c, hc, rfl⟩
  unfold MemoryStore.removeFromIndexes
  rw [hp, he]
  simp

theorem WF_delete {s : MemoryStore} (cid : String) (hWF : WF s) :
    WF (s.delete_contact cid).2 := by
  cases hc : lookupA cid s.contacts with
  | none => simpa [MemoryStore.delete_contact, hc] using hWF
  | some c =>
    have hcid : c.id = cid := hWF.id_eq cid c hc
    have hs : (s.delete_contact cid).2 =
        { contacts := eraseA cid s.contacts
          nameIndex := (pySplit (pyLower c.name)).foldl (removeWordStep c.id) s.nameIndex
          phoneIndex := eraseA c.phone s.phoneIndex
          emailIndex := eraseA (pyLower c.email) s.emailIndex } := by
      simp [MemoryStore.delete_contact, hc, removeFromIndexes_eq hWF hc]
    rw [hs]
    constructor
    · exact nodupKeys_eraseA hWF.ndContacts
    · exact nodupKeys_foldl _ (fun ni w h => nodupKeys_removeWordStep c.id ni w h) _ _ hWF.ndName
    · exact nodupKeys_eraseA hWF.ndPhone
    · exact nodupKeys_eraseA hWF.ndEmail
    · intro k c'' hk
      by_cases hkc : k = cid
      · subst hkc
        rw [lookupA_eraseA_self] at hk
        cases hk
      · rw [lookupA_eraseA_ne _ hkc] at hk
        exact hWF.id_eq k c'' hk
    · intro p i
      show lookupA p (eraseA c.phone s.phoneIndex) = some i ↔
        ∃ c'', lookupA i (eraseA cid s.contacts) = some c'' ∧ c''.phone = p
      by_cases hp : p = c.phone
      · subst hp
        rw [lookupA_eraseA_self]
        constructor
        · intro h
          cases h
        · rintro ⟨c'', hc'', hp''⟩
          by_cases hic : i = cid
          · subst hic
            rw [lookupA_eraseA_self] at hc''
            cases hc''
          · rw [lookupA_eraseA_ne _ hic] at hc''
            have h1 : lookupA c.phone s.phoneIndex = some i :=
              (hWF.phoneIdx _ i).mpr ⟨c'', hc'', hp''⟩
            have h2 : lookupA c.phone s.phoneIndex = some cid :=
              (hWF.phoneIdx _ cid).mpr ⟨c, hc, rfl⟩
            rw [h1] at h2
            injection h2 with h2
            exact absurd h2 hic
      · rw [lookupA_eraseA_ne _ hp, hWF.phoneIdx p i]
        constructor
        · rintro ⟨c'', hc'', hp''⟩
          by_cases hic : i = cid
          · subst hic
            rw [hc] at hc''
            injection hc'' with hc''
            rw [← hc''] at hp''
            exact absurd hp''.symm hp
          · refine ⟨c'', ?_, hp''⟩
            rw [lookupA_eraseA_ne _ hic]
            exact hc''
        · rintro ⟨c'', hc'', hp''⟩
          by_cases hic : i = cid
          · subst hic
            rw [lookupA_eraseA_self] at hc''
            cases hc''
          · rw [lookupA_eraseA_ne _ hic] at hc''
            exact ⟨c'', hc'', hp''⟩
    · intro e i
      show lookupA e (eraseA (pyLower c.email) s.emailIndex) = some i ↔
        ∃ c'', lookupA i (eraseA cid s.contacts) = some c'' ∧ (pyLower c''.email) = e
      by_cases he : e = (pyLower c.email)
      · subst he
        rw [lookupA_eraseA_self]
        constructor
        · intro h
          cases h
        · rintro ⟨c'', hc'', he''⟩
          by_cases hic : i = cid
          · subst hic
            rw [lookupA_eraseA_self] at hc''
            cases hc''
          · rw [lookupA_eraseA_ne _ hic] at hc''
            have h1 : lookupA (pyLower c.email) s.emailIndex = some i :=
              (hWF.emailIdx _ i).mpr ⟨c'', hc'', he''⟩
            have h2 : lookupA (pyLower c.email) s.emailIndex = some cid :=
              (hWF.emailIdx _ cid).mpr ⟨c, hc, rfl⟩
            rw [h1] at h2
            injection h2 with h2
            exact absurd h2 hic
      · rw [lookupA_eraseA_ne _ he, hWF.emailIdx e i]
        constructor
        · rintro ⟨c'', hc'', he''⟩
          by_cases hic : i = cid
          · subst hic
            rw [hc] at hc''
            injection hc'' with hc''
            rw [← hc''] at he''
            exact absurd he''.symm he
          · refine ⟨c'', ?_, he''⟩
            rw [lookupA_eraseA_ne _ hic]
            exact hc''
        · rintro ⟨c'', hc'', he''⟩
          by_cases hic : i = cid
          · subst hic
            rw [lookupA_eraseA_self] at hc''
            cases hc''
          · rw [lookupA_eraseA_ne _ hic] at hc''
            exact ⟨c'', hc'', he''⟩
    · intro w i
      show i ∈ idsOf w ((pySplit (pyLower c.name)).foldl (removeWordStep c.id) s.nameIndex) ↔
        ∃ c'', lookupA i (eraseA cid s.contacts) = some c'' ∧ w ∈ pySplit (pyLower c''.name)
      rw [mem_idsOf_foldl_remove]
      by_cases hic : i = cid
      · constructor
        · rintro ⟨hmem, hneg⟩
          obtain ⟨c'', hc'', hw⟩ := (hWF.nameIdx w i).mp hmem
          rw [hic, hc] at hc''
          injection hc'' with hc''
          rw [← hc''] at hw
          exact absurd ⟨hic.trans hcid.symm, hw⟩ hneg
        · rintro ⟨c'', hc'', -⟩
          rw [hic, lookupA_eraseA_self] at hc''
          cases hc''
      · constructor
        · rintro ⟨hmem, -⟩
          obtain ⟨c'', hc'', hw⟩ := (hWF.nameIdx w i).mp hmem
          refine ⟨c'', ?_, hw⟩
          rw [lookupA_eraseA_ne _ hic]
          exact hc''
        · rintro ⟨c'', hc'', hw⟩
          rw [lookupA_eraseA_ne _ hic] at hc''
          refine ⟨(hWF.nameIdx w i).mpr ⟨c'', hc'', hw⟩, ?_⟩
          rintro ⟨hi, -⟩
          exact hic (hi.trans hcid)

theorem WF_update {s : MemoryStore} (cid : String) (u : Updates) (hWF : WF s)
    (hfresh : ∀ c, lookupA cid s.contacts = some c →
      ∀ kc ∈ s.contacts, kc.1 = cid ∨
        (kc.2.phone ≠ (c.update_fields u).phone ∧
         (pyLower kc.2.email) ≠ pyLower (c.update_fields u).email)) :
    WF (s.update_contact cid u).2 := by
  cases hc : lookupA cid s.contacts with
  | none => simpa [MemoryStore.update_contact, hc] using hWF
  | some c =>
    have hcid : c.id = cid := hWF.id_eq cid c hc
    have hfr := hfresh c hc
    set c' := c.update_fields u with hc'
    have hc'id : c'.id = cid := hcid
    have hs : (s.update_contact cid u).2 =
        { contacts := insertA cid c' s.contacts
          nameIndex := (pySplit (pyLower c'.name)).foldl (addWordStep cid)
            ((pySplit (pyLower c.name)).foldl (removeWordStep c.id) s.nameIndex)
          phoneIndex := insertA c'.phone cid (eraseA c.phone s.phoneIndex)
          emailIndex := insertA (pyLower c'.email) cid (eraseA (pyLower c.email) s.emailIndex) } := by
      simp [MemoryStore.update_contact, hc, removeFromIndexes_eq hWF hc,
        MemoryStore.updateIndexes, ← hc', hc'id]
    rw [hs]
    constructor
    · exact nodupKeys_insertA hWF.ndContacts
    · exact nodupKeys_foldl _ (fun ni w h => nodupKeys_addWordStep cid ni w h) _ _
        (nodupKeys_foldl _ (fun ni w h => nodupKeys_removeWordStep c.id ni w h) _ _ hWF.ndName)
    · exact nodupKeys_insertA (nodupKeys_eraseA hWF.ndPhone)
    · exact nodupKeys_insertA (nodupKeys_eraseA hWF.ndEmail)
    · intro k c'' hk
      by_cases hkc : k = cid
      · subst hkc
        rw [lookupA_insertA_self] at hk
        injection hk with hk
        rw [← hk]
        exact hc'id
      · rw [lookupA_insertA_ne _ _ hkc] at hk
        exact hWF.id_eq k c'' hk
    · intro p i
      show lookupA p (insertA c'.phone cid (eraseA c.phone s.phoneIndex)) = some i ↔
        ∃ c'', lookupA i (insertA cid c' s.contacts) = some c'' ∧ c''.phone = p
      by_cases hp1 : p = c'.phone
      · subst hp1
        rw [lookupA_insertA_self]
        constructor
        · intro hi
          injection hi with hi
          rw [← hi]
          exact ⟨c', by rw [lookupA_insertA_self], rfl⟩
        · rintro ⟨c'', hc'', hp''⟩
          by_cases hic : i = cid
          · rw [hic]
          · rw [lookupA_insertA_ne _ _ hic] at hc''
            rcases hfr _ (lookupA_mem hc'') with h1 | h1
            · exact absurd h1 hic
            · exact absurd hp'' h1.1
      · rw [lookupA_insertA_ne _ _ hp1]
        by_cases hp2 : p = c.phone
        · subst hp2
          rw [lookupA_eraseA_self]
          constructor
          · intro h
            cases h
          · rintro ⟨c'', hc'', hp''⟩
            by_cases hic : i = cid
            · rw [hic, lookupA_insertA_self] at hc''
              injection hc'' with hc''
              rw [← hc''] at hp''
              exact absurd hp''.symm hp1
            · rw [lookupA_insertA_ne _ _ hic] at hc''
              have h1 : lookupA c.phone s.phoneIndex = some i :=
                (hWF.phoneIdx _ i).mpr ⟨c'', hc'', hp''⟩
              have h2 : lookupA c.phone s.phoneIndex = some cid :=
                (hWF.phoneIdx _ cid).mpr ⟨c, hc, rfl⟩
              rw [h1] at h2
              injection h2 with h2
              exact absurd h2 hic
        · rw [lookupA_eraseA_ne _ hp2, hWF.phoneIdx p i]
          constructor
          · rintro ⟨c'', hc'', hp''⟩
            by_cases hic : i = cid
            · rw [hic, hc] at hc''
              injection hc'' with hc''
              rw [← hc''] at hp''
              exact absurd hp''.symm hp2
            · refine ⟨c'', ?_, hp''⟩
              rw [lookupA_insertA_ne _ _ hic]
              exact hc''
          · rintro ⟨c'', hc'', hp''⟩
            by_cases hic : i = cid
            · rw [hic, lookupA_insertA_self] at hc''
              injection hc'' with hc''
              rw [← hc''] at hp''
              exact absurd hp''.symm hp1
            · rw [lookupA_insertA_ne _ _ hic] at hc''
              exact ⟨c'', hc'', hp''⟩
    · intro e i
      show lookupA e (insertA (pyLower c'.email) cid (eraseA (pyLower c.email) s.emailIndex)) =
          some i ↔
        ∃ c'', lookupA i (insertA cid c' s.contacts) = some c'' ∧ (pyLower c''.email) = e
      by_cases he1 : e = (pyLower c'.email)
      · subst he1
        rw [lookupA_insertA_self]
        constructor
        · intro hi
          injection hi with hi
          rw [← hi]
          exact ⟨c', by rw [lookupA_insertA_self], rfl⟩
        · rintro ⟨c'', hc'', he''⟩
          by_cases hic : i = cid
          · rw [hic]
          · rw [lookupA_insertA_ne _ _ hic] at hc''
            rcases hfr _ (lookupA_mem hc'') with h1 | h1
            · exact absurd h1 hic
            · exact absurd he'' h1.2
      · rw [lookupA_insertA_ne _ _ he1]
        by_cases he2 : e = (pyLower c.email)
        · subst he2
          rw [lookupA_eraseA_self]
          constructor
          · intro h
            cases h
          · rintro ⟨c'', hc'', he''⟩
            by_cases hic : i = cid
            · rw [hic, lookupA_insertA_self] at hc''
              injection hc'' with hc''
              rw [← hc''] at he''
              exact absurd he''.symm he1
            · rw [lookupA_insertA_ne _ _ hic] at hc''
              have h1 : lookupA (pyLower c.email) s.emailIndex = some i :=
                (hWF.emailIdx _ i).mpr ⟨c'', hc'', he''⟩
              have h2 : lookupA (pyLower c.email) s.emailIndex = some cid :=
                (hWF.emailIdx _ cid).mpr ⟨c, hc, rfl⟩
              rw [h1] at h2
              injection h2 with h2
              exact absurd h2 hic
        · rw [lookupA_eraseA_ne _ he2, hWF.emailIdx e i]
          constructor
          · rintro ⟨c'', hc'', he''⟩
            by_cases hic : i = cid
            · rw [hic, hc] at hc''
              injection hc'' with hc''
              rw [← hc''] at he''
              exact absurd he''.symm he2
            · refine ⟨c'', ?_, he''⟩
              rw [lookupA_insertA_ne _ _ hic]
              exact hc''
          · rintro ⟨c'', hc'', he''⟩
            by_cases hic : i = cid
            · rw [hic, lookupA_insertA_self] at hc''
              injection hc'' with hc''
              rw [← hc''] at he''
              exact absurd he''.symm he1
            · rw [lookupA_insertA_ne _ _ hic] at hc''
              exact ⟨c'', hc'', he''⟩
    · intro w i
      show i ∈ idsOf w ((pySplit (pyLower c'.name)).foldl (addWordStep cid)
          ((pySplit (pyLower c.name)).foldl (removeWordStep c.id) s.nameIndex)) ↔
        ∃ c'', lookupA i (insertA cid c' s.contacts) = some c'' ∧ w ∈ pySplit (pyLower c''.name)
      rw [mem_idsOf_foldl_add, mem_idsOf_foldl_remove]
      by_cases hic : i = cid
      · constructor
        · rintro (⟨hmem, hneg⟩ | ⟨-, hw⟩)
          · obtain ⟨c'', hc'', hw⟩ := (hWF.nameIdx w i).mp hmem
            rw [hic, hc] at hc''
            injection hc'' with hc''
            rw [← hc''] at hw
            exact absurd ⟨hic.trans hcid.symm, hw⟩ hneg
          · refine ⟨c', ?_, hw⟩
            rw [hic, lookupA_insertA_self]
        · rintro ⟨c'', hc'', hw⟩
          rw [hic, lookupA_insertA_self] at hc''
          injection hc'' with hc''
          rw [← hc''] at hw
          exact Or.inr ⟨hic, hw⟩
      · constructor
        · rintro (⟨hmem, -⟩ | ⟨hi, -⟩)
          · obtain ⟨c'', hc'', hw⟩ := (hWF.nameIdx w i).mp hmem
            refine ⟨c'', ?_, hw⟩
            rw [lookupA_insertA_ne _ _ hic]
            exact hc''
          · exact absurd hi hic
        · rintro ⟨c'', hc'', hw⟩
          rw [lookupA_insertA_ne _ _ hic] at hc''
          refine Or.inl ⟨(hWF.nameIdx w i).mpr ⟨c'', hc'', hw⟩, ?_⟩
          rintro ⟨hi, -⟩
          exact hic (hi.trans hcid)

theorem WF_applyOp {s : MemoryStore} {op : Op} (hWF : WF s) (hok : freshOk s op = true) :
    WF (applyOp s op) := by
  cases op with
  | create c =>
    simp only [freshOk, Bool.and_eq_true, List.all_eq_true, bne_iff_ne,
      Option.isNone_iff_eq_none] at hok
    exact WF_create c hWF hok.1.1 (fun kc h => hok.1.2 kc h) (fun kc h => hok.2 kc h)
  | update cid u =>
    apply WF_update cid u hWF
    intro c hc kc hmem
    simp only [freshOk, hc, List.all_eq_true, Bool.or_eq_true, beq_iff_eq,
      Bool.and_eq_true, bne_iff_ne] at hok
    exact hok kc hmem
  | delete cid => exact WF_delete cid hWF

theorem WF_runFrom {s : MemoryStore} (ops : List Op) (hWF : WF s)
    (hok : runOk s ops = true) : WF (runFrom s ops) := by
  induction ops generalizing s with
  | nil => exact hWF
  | cons op t ih =>
    rw [runOk, Bool.and_eq_true] at hok
    rw [runFrom, List.foldl_cons]
    exact ih (WF_applyOp hWF hok.1) hok.2

theorem runOk_append {s : MemoryStore} {l1 l2 : List Op}
    (h : runOk s (l1 ++ l2) = true) : runOk s l1 = true := by
  induction l1 generalizing s with
  | nil => rfl
  | cons op t ih =>
    rw [List.cons_append, runOk, Bool.and_eq_true] at h
    rw [runOk, Bool.and_eq_true]
    exact ⟨h.1, ih h.2⟩

/-! ## Claim theorems -/

/-- **C5**: `update_contact` fails (returns `None` in the result slot)
exactly when the id is absent from the primary map, and otherwise returns
the contact with the supplied field updates applied.  The other four
operations (`create_contact`, `get_contact`, `delete_contact`,
`search_contacts`, `get_all_contacts`) are total functions of the model by
construction: none has a failure outcome in its result type. -/
theorem c5_update_notfound_iff (s : MemoryStore) (cid : String) (u : Updates) :
    ((s.update_contact cid u).1 = none ↔ lookupA cid s.contacts = none) ∧
    (∀ c, lookupA cid s.contacts = some c →
      (s.update_contact cid u).1 = some (c.update_fields u)) := by
  cases hc : lookupA cid s.contacts with
  | none => simp [MemoryStore.update_contact, hc]
  | some c => simp [MemoryStore.update_contact, hc]

/-- Witness for C5's inner hypothesis at a concrete store. -/
theorem c5_witness :
    (MemoryStore.update_contact "c1" { name := some "B" }
        (MemoryStore.create_contact ⟨"c1", "A", "1", "a@x.com"⟩ emptyStore).2).1 =
      some ⟨"c1", "B", "1", "a@x.com"⟩ :=
  (c5_update_notfound_iff
      (MemoryStore.create_contact ⟨"c1", "A", "1", "a@x.com"⟩ emptyStore).2 "c1"
      { name := some "B" }).2 ⟨"c1", "A", "1", "a@x.com"⟩ (by decide)

/-- **C6**: `delete_contact` is total and idempotent-safe on unknown ids:
on an absent id it returns `false` and leaves the store untouched (and
does so again on an immediate second call), while on a present id it
returns `true` and removes the id from the primary map. -/
theorem c6_delete_total_idempotent (s : MemoryStore) (cid : String) :
    (lookupA cid s.contacts = none →
      s.delete_contact cid = (false, s) ∧
      (s.delete_contact cid).2.delete_contact cid = (false, s)) ∧
    (∀ c, lookupA cid s.contacts = some c →
      (s.delete_contact cid).1 = true ∧
      lookupA cid (s.delete_contact cid).2.contacts = none) := by
  constructor
  · intro hc
    have h1 : s.delete_contact cid = (false, s) := by
      simp [MemoryStore.delete_contact, hc]
    rw [h1]
    exact ⟨rfl, h1⟩
  · intro c hc
    constructor
    · simp [MemoryStore.delete_contact, hc]
    · have h2 : (s.delete_contact cid).2.contacts = eraseA cid s.contacts := by
        simp [MemoryStore.delete_contact, hc, MemoryStore.removeFromIndexes]
      rw [h2, lookupA_eraseA_self]

/-- Witness for C6 at concrete stores: unknown-id delete twice is a no-op
returning `false`, and a present-id delete returns `true` and removes. -/
theorem c6_witness :
    (MemoryStore.delete_contact "zz" emptyStore = (false, emptyStore) ∧
      (MemoryStore.delete_contact "zz" emptyStore).2.delete_contact "zz" =
        (false, emptyStore)) ∧
    ((MemoryStore.delete_contact "c1"
        (MemoryStore.create_contact ⟨"c1", "A", "1", "a@x.com"⟩ emptyStore).2).1 = true ∧
      lookupA "c1" (MemoryStore.delete_contact "c1"
        (MemoryStore.create_contact ⟨"c1", "A", "1", "a@x.com"⟩ emptyStore).2).2.contacts =
        none) :=
  ⟨(c6_delete_total_idempotent emptyStore "zz").1 (by decide),
   (c6_delete_total_idempotent _ "c1").2 ⟨"c1", "A", "1", "a@x.com"⟩ (by decide)⟩

/-- **C8**: create/get round-trip: creating the contact
`("Dana Lee", "5551234567", "dana@x.com")` under any fresh-or-not id and
any prior store state, `get_contact` on that id returns a contact whose
name, phone and email are exactly the three input strings and whose id is
the assigned one; `create_contact` also returns that very contact. -/
theorem c8_create_get_roundtrip (s : MemoryStore) (fresh : String) :
    (MemoryStore.create_contact ⟨fresh, "Dana Lee", "5551234567", "dana@x.com"⟩ s).1 =
      ⟨fresh, "Dana Lee", "5551234567", "dana@x.com"⟩ ∧
    MemoryStore.get_contact fresh
      (MemoryStore.create_contact ⟨fresh, "Dana Lee", "5551234567", "dana@x.com"⟩ s).2 =
      some ⟨fresh, "Dana Lee", "5551234567", "dana@x.com"⟩ := by
  refine ⟨rfl, ?_⟩
  show lookupA fresh
    (insertA fresh (⟨fresh, "Dana Lee", "5551234567", "dana@x.com"⟩ : Contact) s.contacts) = _
  rw [lookupA_insertA_self]

/-- **C10**: update is atomic on failure: on an id absent from the primary
map, `update_contact` returns `None` and the entire store (primary map and
all three indexes) is returned exactly as it was. -/
theorem c10_update_atomic_on_failure (s : MemoryStore) (cid : String) (u : Updates)
    (h : lookupA cid s.contacts = none) :
    s.update_contact cid u = (none, s) := by
  simp [MemoryStore.update_contact, h]

/-- Witness for C10 at a concrete store with a contact present and an
unknown target id. -/
theorem c10_witness :
    MemoryStore.update_contact "zz" { phone := some "2" }
      (MemoryStore.create_contact ⟨"c1", "A", "1", "a@x.com"⟩ emptyStore).2 =
      (none, (MemoryStore.create_contact ⟨"c1", "A", "1", "a@x.com"⟩ emptyStore).2) :=
  c10_update_atomic_on_failure _ "zz" { phone := some "2" } (by decide)

/-- **C2**: in a store whose only contact was created as
`("Alice Smith", "5550001111", "alice@example.com")`, after the update of
that contact's name to `"Carol Jones"` succeeds, `search_contacts "smith"`
returns the empty sequence and `search_contacts "jones"` returns exactly
that (renamed) contact. -/
theorem c2_update_ordering_search :
    MemoryStore.search_contacts "smith"
      (MemoryStore.update_contact "c1" { name := some "Carol Jones" }
        (MemoryStore.create_contact ⟨"c1", "Alice Smith", "5550001111", "alice@example.com"⟩
          emptyStore).2).2 = [] ∧
    MemoryStore.search_contacts "jones"
      (MemoryStore.update_contact "c1" { name := some "Carol Jones" }
        (MemoryStore.create_contact ⟨"c1", "Alice Smith", "5550001111", "alice@example.com"⟩
          emptyStore).2).2 =
      [⟨"c1", "Carol Jones", "5550001111", "alice@example.com"⟩] := by
  decide

/-- **C3**: substring search semantics: with exactly the two contacts
`"Alice Smith"` and `"Bob Smithson"` in the store, `search_contacts
"smith"` returns both contacts, each exactly once ("smith" is a substring
of the token "smithson", not a whole-token or prefix match of it). -/
theorem c3_search_substring_semantics :
    MemoryStore.search_contacts "smith"
      (MemoryStore.create_contact ⟨"c2", "Bob Smithson", "5550002222", "bob@example.org"⟩
        (MemoryStore.create_contact ⟨"c1", "Alice Smith", "5550001111", "alice@example.com"⟩
          emptyStore).2).2 =
      [⟨"c1", "Alice Smith", "5550001111", "alice@example.com"⟩,
       ⟨"c2", "Bob Smithson", "5550002222", "bob@example.org"⟩] := by
  decide

/-- **C4**: `update_contact` mutates only the supplied subset of
`{name, phone, email}` on the target contact: every unsupplied field keeps
its previous value, the id is unchanged (even when an `id` key is passed
in the updates, mirroring the `field != 'id'` guard), and both the
returned contact and the stored contact equal the old contact with the
updates applied. -/
theorem c4_update_frame {s : MemoryStore} {cid : String} {c : Contact} (u : Updates)
    (hc : MemoryStore.get_contact cid s = some c) :
    (s.update_contact cid u).1 = some (c.update_fields u) ∧
    MemoryStore.get_contact cid (s.update_contact cid u).2 = some (c.update_fields u) ∧
    (c.update_fields u).id = c.id ∧
    (u.name = none → (c.update_fields u).name = c.name) ∧
    (u.phone = none → (c.update_fields u).phone = c.phone) ∧
    (u.email = none → (c.update_fields u).email = c.email) := by
  rw [MemoryStore.get_contact] at hc
  refine ⟨?_, ?_, rfl, ?_, ?_, ?_⟩
  · simp [MemoryStore.update_contact, hc]
  · have h2 : (s.update_contact cid u).2.contacts =
        insertA cid (c.update_fields u) s.contacts := by
      simp [MemoryStore.update_contact, hc, MemoryStore.removeFromIndexes,
        MemoryStore.updateIndexes]
    rw [MemoryStore.get_contact, h2, lookupA_insertA_self]
  · intro h
    simp [Contact.update_fields, h]
  · intro h
    simp [Contact.update_fields, h]
  · intro h
    simp [Contact.update_fields, h]

/-- Witness for C4: updating only the phone of a stored contact keeps its
name, email and id. -/
theorem c4_witness :
    (MemoryStore.update_contact "c1" { phone := some "2", id := some "zz" }
        (MemoryStore.create_contact ⟨"c1", "A", "1", "a@x.com"⟩ emptyStore).2).1 =
      some (Contact.update_fields ⟨"c1", "A", "1", "a@x.com"⟩
        { phone := some "2", id := some "zz" }) ∧
    MemoryStore.get_contact "c1"
      (MemoryStore.update_contact "c1" { phone := some "2", id := some "zz" }
        (MemoryStore.create_contact ⟨"c1", "A", "1", "a@x.com"⟩ emptyStore).2).2 =
      some (Contact.update_fields ⟨"c1", "A", "1", "a@x.com"⟩
        { phone := some "2", id := some "zz" }) ∧
    (Contact.update_fields ⟨"c1", "A", "1", "a@x.com"⟩
      { phone := some "2", id := some "zz" }).id = "c1" ∧
    (Contact.update_fields ⟨"c1", "A", "1", "a@x.com"⟩
      { phone := some "2", id := some "zz" }).name = "A" ∧
    (Contact.update_fields ⟨"c1", "A", "1", "a@x.com"⟩
      { phone := some "2", id := some "zz" }).email = "a@x.com" := by
  obtain ⟨h1, h2, h3, h4, -, h6⟩ :=
    @c4_update_frame (MemoryStore.create_contact ⟨"c1", "A", "1", "a@x.com"⟩ emptyStore).2
      "c1" ⟨"c1", "A", "1", "a@x.com"⟩
      { phone := some "2", id := some "zz" } (by decide)
  exact ⟨h1, h2, h3, h4 rfl, h6 rfl⟩

/-- Lowercasing does not change a Python-whitespace character. -/
theorem lowerChar_space {c : Char} (h : isPySpace c = true) : lowerChar c = c := by
  unfold isPySpace at h
  simp only [Bool.or_eq_true, decide_eq_true_eq] at h
  rcases h with ((((rfl | rfl) | rfl) | rfl) | rfl) | rfl <;> decide

/-- Dropping leading whitespace from an all-whitespace character list
yields the empty list. -/
theorem dropPySpaces_all {l : List Char} (h : ∀ c ∈ l, isPySpace c = true) :
    dropPySpaces l = [] := by
  induction l with
  | nil => rfl
  | cons c t ih =>
    rw [dropPySpaces, if_pos (h c (List.mem_cons_self c t))]
    exact ih (fun c hc => h c (List.mem_cons_of_mem _ hc))

/-- **C7**: empty-query guard: for every store state, including states
with contacts present, `search_contacts` returns the empty sequence on any
query that is empty or made only of whitespace characters (never the full
contact list). -/
theorem c7_blank_query_guard (s : MemoryStore) (q : String)
    (hq : ∀ c ∈ q.data, isPySpace c = true) :
    MemoryStore.search_contacts q s = [] := by
  have hlow : ∀ c ∈ (pyLower q).data, isPySpace c = true := by
    intro c hc
    have hdata : (pyLower q).data = q.data.map lowerChar := rfl
    rw [hdata] at hc
    obtain ⟨c0, hc0, rfl⟩ := List.mem_map.mp hc
    rw [lowerChar_space (hq c0 hc0)]
    exact hq c0 hc0
  have hstrip : pyStrip (pyLower q) = "" := by
    unfold pyStrip
    rw [dropPySpaces_all hlow]
    rfl
  rw [MemoryStore.search_contacts, hstrip, if_pos rfl]

/-- Witness for C7: a three-space query on a store holding one contact. -/
theorem c7_witness :
    MemoryStore.search_contacts "   "
      (MemoryStore.create_contact ⟨"c1", "A", "1", "a@x.com"⟩ emptyStore).2 = [] :=
  c7_blank_query_guard _ "   " (by decide)

/-- **C1** counterexample: the invariant as claimed is violated by the
code on a phone collision.  Creating `"a"` and then `"b"` with the same
phone string `"111"` makes the single-valued phone index map `"111"` to
`"b"` only, so the stored contact `"a"` is no longer reachable through its
exact phone string — `allReachable` (hence `indexInvariant`) is false
immediately after the second create. -/
theorem c1_counterexample :
    indexInvariant (run
      [Op.create ⟨"a", "Alice A", "111", "a@x.com"⟩,
       Op.create ⟨"b", "Bob B", "111", "b@y.com"⟩]) = false := by
  decide

/-- **C1** (amended): for every sequence of create/update/delete
operations starting from the empty store in which every create uses a
fresh id and no operation ever gives two stored contacts the same exact
phone string or the same lowercased email (`runOk`), after each operation
(i.e. after every prefix of the sequence) every id reachable through any
entry of the name, phone, or email index exists as a key in the primary
map, and every contact in the primary map is reachable through each of its
lowercased name tokens, its exact phone string, and its lowercased email.
The collision-freedom side condition is forced by `c1_counterexample`:
the phone and email indexes are single-valued and last-writer-wins. -/
theorem c1_index_invariant_amended (ops pre suf : List Op)
    (hsplit : ops = pre ++ suf) (hok : runOk emptyStore ops = true) :
    indexInvariant (run pre) = true := by
  subst hsplit
  exact indexInvariant_of_WF (WF_runFrom pre WF_empty (runOk_append hok))

/-- Witness for C1 (amended) on a concrete collision-free sequence
(create two contacts with distinct phones/emails, update one, delete one),
checked after its three-operation prefix. -/
theorem c1_witness :
    runOk emptyStore
      [Op.create ⟨"a", "Alice A", "111", "a@x.com"⟩,
       Op.create ⟨"b", "Bob B", "222", "b@y.com"⟩,
       Op.update "a" { phone := some "333" },
       Op.delete "b"] = true ∧
    indexInvariant (run
      [Op.create ⟨"a", "Alice A", "111", "a@x.com"⟩,
       Op.create ⟨"b", "Bob B", "222", "b@y.com"⟩,
       Op.update "a" { phone := some "333" }]) = true :=
  ⟨by decide,
   c1_index_invariant_amended
     [Op.create ⟨"a", "Alice A", "111", "a@x.com"⟩,
      Op.create ⟨"b", "Bob B", "222", "b@y.com"⟩,
      Op.update "a" { phone := some "333" },
      Op.delete "b"]
     [Op.create ⟨"a", "Alice A", "111", "a@x.com"⟩,
      Op.create ⟨"b", "Bob B", "222", "b@y.com"⟩,
      Op.update "a" { phone := some "333" }]
     [Op.delete "b"] rfl (by decide)⟩

end AddressBook
